import Mathlib

/-!
Shallow embedding of the real-time preemptive scheduling plugin:

- `pkg/deadline/simpleddl.go` (SimpleDDL queue-sort plugin)
- `pkg/rtpreemptive/deadline/deadline_manager.go` (deadline manager)
- `pkg/rtpreemptive/edf_preemptive_scheduling.go` (EDF plugin hooks)
- `pkg/rtpreemptive/preemption/preemption_manager.go` (preemption manager)
- `pkg/rtpreemptive/predictor/atlas_predictor.go` (ATLAS predictor padding)

Time instants and durations are modelled as `Int` (nanoseconds, matching Go
`time.Time.UnixNano` and `time.Duration`); the zero value of `time.Time`
(its `IsZero` predicate) is modelled as the instant `0`.  Go maps are
modelled as association lists with first-match lookup, so that a fresh
binding shadows an older one exactly like a map write.  External
collaborators (the pod lister, the node lister, API-server writes,
`noderesources.Fits`, `time.ParseDuration`) are parameters of the embedded
functions: the embedding is universally quantified over their behaviour.
-/

/-- Pod phase (`v1.PodPhase`); the fork adds the `paused` phase to the
standard five. -/
inductive Phase where
  | pending
  | running
  | paused
  | succeeded
  | failed
  deriving DecidableEq, Repr

/-- Workload (pod) model: exactly the fields of `v1.Pod` that the embedded
code reads.  `priorityVal` models the `Spec.Priority` pointer (`none` for
nil), `nodeName` models `Spec.NodeName`, `creationTimestamp` models
`ObjectMeta.CreationTimestamp`. -/
structure Pod where
  uid : String
  namespaceName : String
  name : String
  priorityVal : Option Int
  creationTimestamp : Int
  annotations : List (String × String)
  phase : Phase
  nodeName : String
  deriving DecidableEq, Repr

/-- A `preemption.Candidate`: a node name and a pod. -/
structure Candidate where
  nodeName : String
  pod : Pod
  deriving DecidableEq, Repr

/-- A node; only its name is read by the embedded code. -/
structure NodeT where
  name : String
  deriving DecidableEq, Repr

/-- First-match lookup in an association list (a Go map read). -/
def lookupA {α : Type} (l : List (String × α)) (k : String) : Option α :=
  match l with
  | [] => none
  | (k0, v) :: rest => if k0 = k then some v else lookupA rest k

/-- A Go map write: the new binding shadows any previous one. -/
def setA {α : Type} (l : List (String × α)) (k : String) (v : α) :
    List (String × α) :=
  (k, v) :: l

/-- A Go map delete: drop every binding of the key. -/
def removeA {α : Type} (l : List (String × α)) (k : String) :
    List (String × α) :=
  l.filter (fun kv => kv.1 ≠ k)

/-- Annotation key `rt-preemptive.scheduling.x-k8s.io/ddl`. -/
def ddlKeyRT : String := "rt-preemptive.scheduling.x-k8s.io/ddl"

/-- Annotation key `rt-preemptive.scheduling.x-k8s.io/pause-pod`. -/
def pausePodKey : String := "rt-preemptive.scheduling.x-k8s.io/pause-pod"

/-- Annotation key `rt-preemptive.scheduling.x-k8s.io/preemptible`. -/
def preemptibleKey : String := "rt-preemptive.scheduling.x-k8s.io/preemptible"

/-- Annotation key `simpleddl.scheduling.x-k8s.io/ddl`. -/
def ddlKeySimple : String := "simpleddl.scheduling.x-k8s.io/ddl"

/-- The helper `corev1helpers.PodPriority`: the value of the
`Spec.Priority` pointer, or `0` when the pointer is nil. -/
def podPriority (p : Pod) : Int :=
  p.priorityVal.getD 0

/-- Modelled from the spec: `core.GetNamespacedName` of package
`pkg/coscheduling/core` is not under `src/`; per the data-model section a
workload is identified by the human key `namespace/name`. -/
def namespacedName (p : Pod) : String :=
  p.namespaceName ++ "/" ++ p.name

namespace DeadlineMgr

/-- Default relative deadline of the preemptive profile:
`time.Hour * 24 * 30` (30 days) in nanoseconds. -/
def defaultDDLRelative : Int := 30 * 24 * 60 * 60 * 1000000000

/-- `ParsePodDeadline` of `deadline_manager.go`.  `parseDur` models
`time.ParseDuration` (`none` on a parse error); `now` models
`time.Now()`. -/
def ParsePodDeadline (parseDur : String → Option Int) (now : Int)
    (p : Pod) : Int :=
  if p.creationTimestamp = 0 then now + defaultDDLRelative
  else
    let defaultDDL := p.creationTimestamp + defaultDDLRelative
    match lookupA p.annotations ddlKeyRT with
    | none => defaultDDL
    | some ddlStr =>
      match parseDur ddlStr with
      | none => defaultDDL
      | some ddl => if ddl < 0 then defaultDDL else p.creationTimestamp + ddl

/-- `GetPodDeadline`: cached read keyed by pod UID; on a miss it computes
via `ParsePodDeadline` without storing. -/
def GetPodDeadline (parseDur : String → Option Int)
    (cache : List (String × Int)) (now : Int) (p : Pod) : Int :=
  match lookupA cache p.uid with
  | some t => t
  | none => ParsePodDeadline parseDur now p

/-- `AddPodDeadline`: computes `GetPodDeadline` and stores the result keyed
by UID; returns the deadline together with the new cache state. -/
def AddPodDeadline (parseDur : String → Option Int)
    (cache : List (String × Int)) (now : Int) (p : Pod) :
    Int × List (String × Int) :=
  let ddl := GetPodDeadline parseDur cache now p
  (ddl, setA cache p.uid ddl)

end DeadlineMgr

namespace SimpleDDL

/-- Default relative deadline of the simple profile: `time.Minute * 10`
in nanoseconds. -/
def defaultDDLRelative : Int := 10 * 60 * 1000000000

/-- `parseDDL` of `simpleddl.go`; the creation time is an explicit argument
exactly as in the source. -/
def parseDDL (parseDur : String → Option Int) (now creationTime : Int)
    (p : Pod) : Int :=
  if creationTime = 0 then now + defaultDDLRelative
  else
    let defaultDDL := creationTime + defaultDDLRelative
    match lookupA p.annotations ddlKeySimple with
    | none => defaultDDL
    | some ddlStr =>
      match parseDur ddlStr with
      | none => defaultDDL
      | some ddl => if ddl < 0 then defaultDDL else creationTime + ddl

/-- `Less` of the `SimpleDDL` plugin: priority descending, then absolute
deadline ascending, then namespaced name ascending. -/
def Less (parseDur : String → Option Int) (now : Int) (p1 p2 : Pod) : Bool :=
  let prio1 := podPriority p1
  let prio2 := podPriority p2
  if prio1 ≠ prio2 then decide (prio1 > prio2)
  else
    let ddl1 := parseDDL parseDur now p1.creationTimestamp p1
    let ddl2 := parseDDL parseDur now p2.creationTimestamp p2
    if ddl1 = ddl2 then decide (namespacedName p1 < namespacedName p2)
    else decide (ddl1 < ddl2)

end SimpleDDL

namespace Predictor

/-- `padMetrics` of `atlas_predictor.go`, including the literal loop bounds
of the padding loop `for i := len(metrics) - 1; i < a.msize; i++`, which
runs `max 0 (msize - (len - 1))` times, that is `msize + 1 - len` in
truncated natural subtraction. -/
def padMetrics (msize : Nat) (metrics : List Float) : List Float :=
  let maxSize := min 4 metrics.length
  metrics.take maxSize ++ List.replicate (msize + 1 - metrics.length) 0

end Predictor

namespace Preemption

/-- `toCacheKey`: `fmt.Sprintf` of the namespace and the name joined by a
slash. -/
def toCacheKey (p : Pod) : String :=
  p.namespaceName ++ "/" ++ p.name

/-- Go `strings.Split` with the slash as separator, on character lists. -/
def splitSlash (l : List Char) : List (List Char) :=
  match l with
  | [] => [[]]
  | c :: rest =>
    if c = '/' then [] :: splitSlash rest
    else
      match splitSlash rest with
      | [] => [[c]]
      | h :: t => (c :: h) :: t

/-- `parseCacheKey`: split the key on slashes; unless there are exactly two
parts, return empty namespace and name (the zero values of the named
results). -/
def parseCacheKey (key : String) : String × String :=
  let res := splitSlash key.data
  if res.length ≠ 2 then ("", "")
  else (String.mk (res.getD 0 []), String.mk (res.getD 1 []))

/-- `markPodToPaused`: set the pause-pod annotation to `"true"`. -/
def markPodToPaused (p : Pod) : Pod :=
  { p with annotations := setA p.annotations pausePodKey "true" }

/-- `markPodToResume`: set the pause-pod annotation to `"false"`. -/
def markPodToResume (p : Pod) : Pod :=
  { p with annotations := setA p.annotations pausePodKey "false" }

/-- `IsPodMarkedPaused`: the pause-pod annotation is present and equal to
`"true"`. -/
def IsPodMarkedPaused (p : Pod) : Bool :=
  match lookupA p.annotations pausePodKey with
  | none => false
  | some v => decide (v = "true")

/-- Mutable state of the preemption manager: the paused-pods cache (cache
key to node name) and the deadline cache of its embedded deadline manager
(pod UID to absolute deadline). -/
structure MgrState where
  pausedPods : List (String × String)
  ddlCache : List (String × Int)
  deriving DecidableEq, Repr

/-- `AddPausedPod`: record the node under the candidate key and upsert the
deadline of the candidate pod. -/
def AddPausedPod (parseDur : String → Option Int) (now : Int)
    (st : MgrState) (cand : Candidate) : MgrState :=
  { pausedPods := setA st.pausedPods (toCacheKey cand.pod) cand.nodeName,
    ddlCache := (DeadlineMgr.AddPodDeadline parseDur st.ddlCache now cand.pod).2 }

/-- `RemovePausedPod`: drop the paused entry by key and the deadline entry
by UID. -/
def RemovePausedPod (st : MgrState) (p : Pod) : MgrState :=
  { pausedPods := removeA st.pausedPods (toCacheKey p),
    ddlCache := removeA st.ddlCache p.uid }

/-- `GetPausedPodNode`: read the node name recorded for the pod and fetch
the node from the node lister; `none` models both the cache-miss error and
a lister failure, each of which the callers treat alike. -/
def GetPausedPodNode (nodeL : String → Option NodeT) (st : MgrState)
    (p : Pod) : Option NodeT :=
  match lookupA st.pausedPods (toCacheKey p) with
  | none => none
  | some nodeName => nodeL nodeName

/-- `PauseCandidate`: fetch the latest pod from the lister, mark it paused,
write it back (`updateOk` models the API-server update succeeding), and on
success record the paused entry.  The result is an optional error message
paired with the manager state after the call (unchanged on error). -/
def PauseCandidate (lister : String → String → Option Pod)
    (updateOk : Pod → Bool) (parseDur : String → Option Int) (now : Int)
    (st : MgrState) (cand : Candidate) : Option String × MgrState :=
  match lister cand.pod.namespaceName cand.pod.name with
  | none => (some "failed to get latest pod", st)
  | some latestPod =>
    let marked := markPodToPaused latestPod
    if updateOk marked then (none, AddPausedPod parseDur now st cand)
    else (some "failed to pause pod", st)

/-- Loop body of `ResumePausedPod` over the snapshot of cache keys.  The
third component of the result collects every pod handed to the store write,
in order, whether or not the write succeeded. -/
def resumeScan (lister : String → String → Option Pod)
    (nodeL : String → Option NodeT) (updateOk : Pod → Bool)
    (parseDur : String → Option Int) (now : Int)
    (st : MgrState) (pod : Pod) :
    List String → Option Candidate × MgrState × List Pod
  | [] => (none, st, [])
  | key :: rest =>
    let pr := parseCacheKey key
    match lister pr.1 pr.2 with
    | none => resumeScan lister nodeL updateOk parseDur now st pod rest
    | some pausedPod =>
      let pausedPodDDL := DeadlineMgr.GetPodDeadline parseDur st.ddlCache now pausedPod
      let podDDL := DeadlineMgr.GetPodDeadline parseDur st.ddlCache now pod
      if podDDL < pausedPodDDL then
        resumeScan lister nodeL updateOk parseDur now st pod rest
      else
        match GetPausedPodNode nodeL st pausedPod with
        | none => resumeScan lister nodeL updateOk parseDur now st pod rest
        | some node =>
          let marked := markPodToResume pausedPod
          if updateOk marked then
            (some { nodeName := node.name, pod := marked },
              RemovePausedPod st marked, [marked])
          else
            let r := resumeScan lister nodeL updateOk parseDur now st pod rest
            (r.1, r.2.1, marked :: r.2.2)

/-- One scan step of `ResumePausedPod` fully succeeds for a key: the lister
finds the pod, the trigger deadline is at least the paused deadline, the
recorded node resolves, and the store write succeeds. -/
def canResume (lister : String → String → Option Pod)
    (nodeL : String → Option NodeT) (updateOk : Pod → Bool)
    (parseDur : String → Option Int) (now : Int)
    (st : MgrState) (pod : Pod) (key : String) : Bool :=
  let pr := parseCacheKey key
  match lister pr.1 pr.2 with
  | none => false
  | some pausedPod =>
    let pausedPodDDL := DeadlineMgr.GetPodDeadline parseDur st.ddlCache now pausedPod
    let podDDL := DeadlineMgr.GetPodDeadline parseDur st.ddlCache now pod
    if podDDL < pausedPodDDL then false
    else
      match GetPausedPodNode nodeL st pausedPod with
      | none => false
      | some _ => updateOk (markPodToResume pausedPod)

/-- `ResumePausedPod`: scan the keys of the paused cache in their list
order (map iteration order is unspecified in Go; the universally
quantified cache state realises every order). -/
def ResumePausedPod (lister : String → String → Option Pod)
    (nodeL : String → Option NodeT) (updateOk : Pod → Bool)
    (parseDur : String → Option Int) (now : Int)
    (st : MgrState) (pod : Pod) : Option Candidate × MgrState × List Pod :=
  resumeScan lister nodeL updateOk parseDur now st pod
    (st.pausedPods.map Prod.fst)

end Preemption

namespace EDF

/-- `Less` of the `EDFPreemptiveScheduling` plugin.  The deadline manager
upserts on read: the deadline of the first pod is stored before the second
pod is looked up, exactly as `AddPodDeadline` is called twice in sequence
on the shared cache. -/
def Less (parseDur : String → Option Int) (cache : List (String × Int))
    (now : Int) (p1 p2 : Pod) : Bool :=
  let prio1 := podPriority p1
  let prio2 := podPriority p2
  if prio1 ≠ prio2 then decide (prio1 > prio2)
  else
    let r1 := DeadlineMgr.AddPodDeadline parseDur cache now p1
    let r2 := DeadlineMgr.AddPodDeadline parseDur r1.2 now p2
    if r1.1 = r2.1 then decide (namespacedName p1 < namespacedName p2)
    else decide (r1.1 < r2.1)

/-- Status codes of the embedded hooks; `success` stands for the nil
status, `unresolvable` for `UnschedulableAndUnresolvable`. -/
inductive Status where
  | success
  | skip
  | unschedulable (reasons : List String)
  | unresolvable
  deriving DecidableEq, Repr

/-- Modelled from the spec: `ResumeCandidate` lives in a revision of the
preemption manager that is not under `src/`; per the error-handling table a
resume attempt either succeeds, reports the pod as not paused, or fails
with another error. -/
inductive ResumeOutcome where
  | resumed
  | notPaused
  | failed
  deriving DecidableEq, Repr

/-- `PreFilter` of `edf_preemptive_scheduling.go`.  `latestPod` is the
result of the pod-lister lookup whose error the source discards (`none`
when the lookup failed); `candOn` models `GetPausedCandidateOnNode` and
`resumeRes` models `ResumeCandidate`, both from a preemption-manager
revision that is not under `src/`.  The result `none` models the
nil-pointer dereference of `latestPod.UID` in the candidate comparison,
which panics; every other path returns a status. -/
def PreFilter (latestPod : Option Pod) (isWaiting : Bool)
    (candOn : String → Option Candidate)
    (resumeRes : Candidate → ResumeOutcome) (pod0 : Pod) : Option Status :=
  let pod := match latestPod with | some lp => lp | none => pod0
  if Preemption.IsPodMarkedPaused pod then
    if isWaiting || decide (pod.phase = Phase.pending) then some Status.skip
    else
      let candidate :=
        match candOn pod.nodeName with
        | some c => c
        | none => { nodeName := pod.nodeName, pod := pod }
      match latestPod with
      | none => none
      | some lp =>
        if candidate.pod.uid ≠ lp.uid then some Status.unresolvable
        else
          match resumeRes candidate with
          | ResumeOutcome.notPaused => some Status.skip
          | ResumeOutcome.failed => some Status.unresolvable
          | ResumeOutcome.resumed => some Status.skip
  else some Status.success

/-- `Filter` of `edf_preemptive_scheduling.go`.  `fits` models
`noderesources.Fits` returning the list of insufficiency reasons;
`residents` models `nodeInfo.Pods`; `resumeOk` tells whether
`ResumeCandidate` succeeds for a candidate. -/
def Filter (parseDur : String → Option Int) (cache : List (String × Int))
    (now : Int) (candOn : String → Option Candidate)
    (resumeOk : Candidate → Bool) (fits : Pod → List Pod → List String)
    (pod : Pod) (nodeName : String) (residents : List Pod) : Status :=
  if 0 < pod.nodeName.length ∧ pod.nodeName ≠ nodeName then
    Status.unresolvable
  else
    let resumed :=
      match candOn nodeName with
      | none => false
      | some candidate =>
        if DeadlineMgr.GetPodDeadline parseDur cache now candidate.pod <
            DeadlineMgr.GetPodDeadline parseDur cache now pod then
          resumeOk candidate
        else false
    if resumed then Status.unresolvable
    else
      let unpausedPods := residents.filter (fun p => p.phase ≠ Phase.paused)
      let failureReasons := fits pod unpausedPods
      if failureReasons.length ≠ 0 then Status.unschedulable failureReasons
      else Status.success

/-- First loop of `findCandidateOnNode`: resolve each resident through the
pod lister (falling back to the snapshot pod on error), skip the pod under
scheduling by UID and every paused resident, collect the remaining pods in
order, and track the pod with the latest deadline seen so far. -/
def findScan (parseDur : String → Option Int) (cache : List (String × Int))
    (now : Int) (lister : String → String → Option Pod) (wuid : String) :
    List Pod → Int → Option Pod → List Pod × Int × Option Pod
  | [], maxDDL, cand => ([], maxDDL, cand)
  | q :: rest, maxDDL, cand =>
    let p := (lister q.namespaceName q.name).getD q
    if p.uid = wuid then findScan parseDur cache now lister wuid rest maxDDL cand
    else if p.phase = Phase.paused then
      findScan parseDur cache now lister wuid rest maxDDL cand
    else
      let ddl := DeadlineMgr.GetPodDeadline parseDur cache now p
      let r :=
        if maxDDL < ddl then findScan parseDur cache now lister wuid rest ddl (some p)
        else findScan parseDur cache now lister wuid rest maxDDL cand
      (p :: r.1, r.2.1, r.2.2)

/-- `findCandidateOnNode` of `edf_preemptive_scheduling.go`: the max
deadline starts at the deadline of the pod under scheduling, and the
selected resident must leave enough resources for that pod once removed. -/
def findCandidateOnNode (parseDur : String → Option Int)
    (cache : List (String × Int)) (now : Int)
    (lister : String → String → Option Pod)
    (fits : Pod → List Pod → List String) (pod : Pod)
    (residents : List Pod) : Option Pod :=
  let podDDL := DeadlineMgr.GetPodDeadline parseDur cache now pod
  let scan := findScan parseDur cache now lister pod.uid residents podDDL none
  match scan.2.2 with
  | none => none
  | some candidatePod =>
    let podsExcludeCandidate := scan.1.filter (fun p => p.uid ≠ candidatePod.uid)
    let insufficientResources := fits pod podsExcludeCandidate
    if 0 < insufficientResources.length then none else some candidatePod

/-- Loop of `selectCandidate`: running best candidate and its deadline. -/
def selLoop (parseDur : String → Option Int) (cache : List (String × Int))
    (now : Int) : List Candidate → Int → Candidate → Candidate
  | [], _, best => best
  | c :: rest, maxDDL, best =>
    let ddl := DeadlineMgr.GetPodDeadline parseDur cache now c.pod
    if maxDDL < ddl then selLoop parseDur cache now rest ddl c
    else selLoop parseDur cache now rest maxDDL best

/-- `selectCandidate` of `edf_preemptive_scheduling.go`: pick the candidate
whose pod has the latest deadline, initialised with the first candidate
and iterating over the whole list as the source does. -/
def selectCandidate (parseDur : String → Option Int)
    (cache : List (String × Int)) (now : Int)
    (candidates : List Candidate) : Option Candidate :=
  match candidates with
  | [] => none
  | c0 :: _ =>
    some (selLoop parseDur cache now candidates
      (DeadlineMgr.GetPodDeadline parseDur cache now c0.pod) c0)

end EDF

/-- Exactly one of three propositions holds. -/
def exactlyOne (a b c : Prop) : Prop :=
  (a ∧ ¬ b ∧ ¬ c) ∨ (¬ a ∧ b ∧ ¬ c) ∨ (¬ a ∧ ¬ b ∧ c)

/-! ### Concrete fixtures used by witnesses and counterexamples -/

/-- A concrete stand-in for `time.ParseDuration` understanding `1m` and
`1h`. -/
def parseDurC : String → Option Int := fun s =>
  if s = "1m" then some 60000000000
  else if s = "1h" then some 3600000000000
  else none

/-- A pending pod with a one-minute relative deadline. -/
def podW : Pod :=
  { uid := "uid-w", namespaceName := "default", name := "w",
    priorityVal := none, creationTimestamp := 1000,
    annotations := [(ddlKeyRT, "1m")], phase := Phase.pending,
    nodeName := "" }

/-- A running resident with a one-hour relative deadline that is marked
non-preemptible. -/
def podR : Pod :=
  { uid := "uid-r", namespaceName := "default", name := "r",
    priorityVal := none, creationTimestamp := 1000,
    annotations := [(ddlKeyRT, "1h"), (preemptibleKey, "false")],
    phase := Phase.running, nodeName := "node1" }

/-- A running pod marked `pause-pod=true` and bound to a node. -/
def podPR : Pod :=
  { uid := "uid-p", namespaceName := "default", name := "p",
    priorityVal := none, creationTimestamp := 1000,
    annotations := [(pausePodKey, "true")], phase := Phase.running,
    nodeName := "node1" }

/-- A pod whose name contains a slash, with zero creation time. -/
def podSlash : Pod :=
  { uid := "uid-s", namespaceName := "default", name := "a/b",
    priorityVal := none, creationTimestamp := 0, annotations := [],
    phase := Phase.pending, nodeName := "" }

/-- The common comparator shape of both `Less` functions: priority
descending, then a deadline value ascending, then key ascending. -/
def lessCore (prio1 prio2 d1 d2 : Int) (n1 n2 : String) : Bool :=
  if prio1 ≠ prio2 then decide (prio1 > prio2)
  else if d1 = d2 then decide (n1 < n2) else decide (d1 < d2)

/-! ### Association-list and deadline helper lemmas -/

theorem lookupA_setA {α : Type} (l : List (String × α)) (k k2 : String)
    (v : α) :
    lookupA (setA l k v) k2 = if k = k2 then some v else lookupA l k2 := rfl

theorem getPodDeadline_setA (parseDur : String → Option Int)
    (cache : List (String × Int)) (now : Int) (k : String) (v : Int)
    (p : Pod) :
    DeadlineMgr.GetPodDeadline parseDur (setA cache k v) now p =
      if k = p.uid then v
      else DeadlineMgr.GetPodDeadline parseDur cache now p := by
  unfold DeadlineMgr.GetPodDeadline
  rw [lookupA_setA]
  by_cases h : k = p.uid <;> simp [h]

/-! ### Lemmas about the cache-key split -/

theorem splitSlash_ne_nil (l : List Char) : Preemption.splitSlash l ≠ [] := by
  induction l with
  | nil => simp [Preemption.splitSlash]
  | cons c rest ih =>
    unfold Preemption.splitSlash
    by_cases h : c = '/'
    · simp [h]
    · simp only [h, if_false]
      cases hr : Preemption.splitSlash rest <;> simp

theorem splitSlash_no_slash (l : List Char) (h : '/' ∉ l) :
    Preemption.splitSlash l = [l] := by
  induction l with
  | nil => rfl
  | cons c rest ih =>
    have hc : c ≠ '/' := fun hc => h (hc ▸ List.mem_cons_self c rest)
    have hr : '/' ∉ rest := fun hm => h (List.mem_cons_of_mem c hm)
    unfold Preemption.splitSlash
    simp only [hc, if_false, ih hr]

theorem splitSlash_cons_ne (c : Char) (rest : List Char) (hc : c ≠ '/') :
    Preemption.splitSlash (c :: rest) =
      match Preemption.splitSlash rest with
      | [] => [[c]]
      | h :: t => (c :: h) :: t := by
  rw [Preemption.splitSlash]
  simp only [hc, if_false]

theorem splitSlash_append (xs rest : List Char) (h : '/' ∉ xs) :
    Preemption.splitSlash (xs ++ '/' :: rest) =
      xs :: Preemption.splitSlash rest := by
  induction xs with
  | nil => simp [Preemption.splitSlash]
  | cons c t ih =>
    have hc : c ≠ '/' := fun hc => h (hc ▸ List.mem_cons_self c t)
    have ht : '/' ∉ t := fun hm => h (List.mem_cons_of_mem c hm)
    rw [List.cons_append, splitSlash_cons_ne c _ hc, ih ht]

theorem splitSlash_length (l : List Char) :
    (Preemption.splitSlash l).length = l.count '/' + 1 := by
  induction l with
  | nil => rfl
  | cons c rest ih =>
    unfold Preemption.splitSlash
    by_cases h : c = '/'
    · simp [h, List.count_cons, ih]
    · simp only [h, if_false]
      cases hr : Preemption.splitSlash rest with
      | nil => exact absurd hr (splitSlash_ne_nil rest)
      | cons h0 t0 =>
        have := ih
        rw [hr] at this
        simp only [List.length_cons] at this ⊢
        simp [List.count_cons, h, this]

theorem toCacheKey_data (p : Pod) :
    (Preemption.toCacheKey p).data =
      p.namespaceName.data ++ '/' :: p.name.data := by
  show ((p.namespaceName ++ "/") ++ p.name).data = _
  rw [String.data_append, String.data_append]
  simp

/-- C10: the cache-key round trip.  When neither the namespace nor the
name of a pod contains a slash, `parseCacheKey` applied to `toCacheKey`
returns exactly the namespace and the name; when the name contains a
slash, the split has more than two parts and `parseCacheKey` returns the
empty namespace and name. -/
theorem cacheKey_roundTrip (p : Pod) :
    (('/' ∉ p.namespaceName.data ∧ '/' ∉ p.name.data) →
      Preemption.parseCacheKey (Preemption.toCacheKey p) =
        (p.namespaceName, p.name)) ∧
    ('/' ∈ p.name.data →
      Preemption.parseCacheKey (Preemption.toCacheKey p) = ("", "")) := by
  constructor
  · rintro ⟨h1, h2⟩
    have hsplit : Preemption.splitSlash (Preemption.toCacheKey p).data =
        [p.namespaceName.data, p.name.data] := by
      rw [toCacheKey_data, splitSlash_append _ _ h1, splitSlash_no_slash _ h2]
    simp only [Preemption.parseCacheKey, hsplit]
    norm_num [List.getD]
  · intro hm
    have hcount : 2 ≤ ((Preemption.toCacheKey p).data).count '/' := by
      rw [toCacheKey_data, List.count_append, List.count_cons]
      have hpos : 0 < p.name.data.count '/' := List.count_pos_iff.mpr hm
      simp only [beq_self_eq_true, if_true]
      omega
    have hlen : (Preemption.splitSlash (Preemption.toCacheKey p).data).length ≠ 2 := by
      rw [splitSlash_length]
      omega
    simp only [Preemption.parseCacheKey]
    rw [if_pos hlen]

/-- C10 witness: the round trip evaluated at a slash-free pod and at a pod
whose name contains a slash. -/
theorem cacheKey_roundTrip_witness :
    Preemption.parseCacheKey (Preemption.toCacheKey podW) = ("default", "w") ∧
    Preemption.parseCacheKey (Preemption.toCacheKey podSlash) = ("", "") :=
  ⟨(cacheKey_roundTrip podW).1 (by constructor <;> decide),
   (cacheKey_roundTrip podSlash).2 (by decide)⟩

/-- C4: evaluation of `padMetrics` at its failing inputs.  The claim says
the result always has exactly `metricSize` (10) elements; the padding loop
`for i := len(metrics) - 1; i < msize; i++` is off by one from the length
of the truncated vector, so four input features yield 11 elements and ten
input features yield only 5. -/
theorem padMetrics_wrong_length :
    (Predictor.padMetrics 10 [1, 2, 3, 4]).length = 11 ∧
    (Predictor.padMetrics 10 [0, 0, 0, 0, 0, 0, 0, 0, 0, 0]).length = 5 := by
  constructor <;> rfl

/-- C9: `PreFilter` does not always return a status.  When the pod-lister
lookup of the latest pod fails (`latestPod` nil), the pod is marked
`pause-pod=true`, it is neither waiting nor pending, and the candidate
comparison is reached, the source dereferences `latestPod.UID` on a nil
pointer; the embedding returns `none` (panic) on that path. -/
theorem preFilter_panics_on_failed_lookup :
    EDF.PreFilter none false (fun _ => none)
      (fun _ => EDF.ResumeOutcome.resumed) podPR = none := by
  rfl

/-- C5: `findCandidateOnNode` evaluated at a resident annotated
`preemptible="false"`: the candidate search never consults the
preemptible annotation and selects that resident for pausing. -/
theorem findCandidate_ignores_preemptible :
    lookupA podR.annotations preemptibleKey = some "false" ∧
    EDF.findCandidateOnNode parseDurC [] 0 (fun _ _ => none)
      (fun _ _ => []) podW [podR] = some podR := by
  constructor <;> rfl

/-- C3: the absolute-deadline fallback ladder, for both
`DeadlineMgr.ParsePodDeadline` (30-day default) and `SimpleDDL.parseDDL`
(10-minute default), applied in order: zero creation time gives `now`
plus the default; with a nonzero creation time, a missing annotation, an
unparseable annotation, or a negative parsed duration give the creation
time plus the default; otherwise the result is the creation time plus the
parsed duration. -/
theorem parse_deadline_ladder (parseDur : String → Option Int) (now : Int)
    (p : Pod) :
    (p.creationTimestamp = 0 →
      DeadlineMgr.ParsePodDeadline parseDur now p =
        now + DeadlineMgr.defaultDDLRelative ∧
      SimpleDDL.parseDDL parseDur now p.creationTimestamp p =
        now + SimpleDDL.defaultDDLRelative) ∧
    (p.creationTimestamp ≠ 0 →
      ((lookupA p.annotations ddlKeyRT = none →
          DeadlineMgr.ParsePodDeadline parseDur now p =
            p.creationTimestamp + DeadlineMgr.defaultDDLRelative) ∧
       (∀ s, lookupA p.annotations ddlKeyRT = some s → parseDur s = none →
          DeadlineMgr.ParsePodDeadline parseDur now p =
            p.creationTimestamp + DeadlineMgr.defaultDDLRelative) ∧
       (∀ s d, lookupA p.annotations ddlKeyRT = some s →
          parseDur s = some d → d < 0 →
          DeadlineMgr.ParsePodDeadline parseDur now p =
            p.creationTimestamp + DeadlineMgr.defaultDDLRelative) ∧
       (∀ s d, lookupA p.annotations ddlKeyRT = some s →
          parseDur s = some d → 0 ≤ d →
          DeadlineMgr.ParsePodDeadline parseDur now p =
            p.creationTimestamp + d) ∧
       (lookupA p.annotations ddlKeySimple = none →
          SimpleDDL.parseDDL parseDur now p.creationTimestamp p =
            p.creationTimestamp + SimpleDDL.defaultDDLRelative) ∧
       (∀ s, lookupA p.annotations ddlKeySimple = some s → parseDur s = none →
          SimpleDDL.parseDDL parseDur now p.creationTimestamp p =
            p.creationTimestamp + SimpleDDL.defaultDDLRelative) ∧
       (∀ s d, lookupA p.annotations ddlKeySimple = some s →
          parseDur s = some d → d < 0 →
          SimpleDDL.parseDDL parseDur now p.creationTimestamp p =
            p.creationTimestamp + SimpleDDL.defaultDDLRelative) ∧
       (∀ s d, lookupA p.annotations ddlKeySimple = some s →
          parseDur s = some d → 0 ≤ d →
          SimpleDDL.parseDDL parseDur now p.creationTimestamp p =
            p.creationTimestamp + d))) := by
  constructor
  · intro h0
    constructor
    · simp [DeadlineMgr.ParsePodDeadline, h0]
    · simp [SimpleDDL.parseDDL, h0]
  · intro hnz
    refine ⟨?_, ?_, ?_, ?_, ?_, ?_, ?_, ?_⟩
    · intro hlk
      simp [DeadlineMgr.ParsePodDeadline, hnz, hlk]
    · intro s hlk hps
      simp [DeadlineMgr.ParsePodDeadline, hnz, hlk, hps]
    · intro s d hlk hps hd
      simp [DeadlineMgr.ParsePodDeadline, hnz, hlk, hps, hd]
    · intro s d hlk hps hd
      simp [DeadlineMgr.ParsePodDeadline, hnz, hlk, hps, not_lt.mpr hd]
    · intro hlk
      simp [SimpleDDL.parseDDL, hnz, hlk]
    · intro s hlk hps
      simp [SimpleDDL.parseDDL, hnz, hlk, hps]
    · intro s d hlk hps hd
      simp [SimpleDDL.parseDDL, hnz, hlk, hps, hd]
    · intro s d hlk hps hd
      simp [SimpleDDL.parseDDL, hnz, hlk, hps, not_lt.mpr hd]

/-- C3 witness: the ladder evaluated at a pod with zero creation time and
at a pod with a parseable one-minute relative deadline. -/
theorem parse_deadline_ladder_witness :
    DeadlineMgr.ParsePodDeadline parseDurC 77 podSlash =
      77 + DeadlineMgr.defaultDDLRelative ∧
    DeadlineMgr.ParsePodDeadline parseDurC 77 podW = 1000 + 60000000000 :=
  ⟨((parse_deadline_ladder parseDurC 77 podSlash).1 rfl).1,
   ((parse_deadline_ladder parseDurC 77 podW).2 (by decide)).2.2.2.1
      "1m" 60000000000 rfl rfl (by decide)⟩

theorem simpleLess_eq_core (parseDur : String → Option Int) (now : Int)
    (p1 p2 : Pod) :
    SimpleDDL.Less parseDur now p1 p2 =
      lessCore (podPriority p1) (podPriority p2)
        (SimpleDDL.parseDDL parseDur now p1.creationTimestamp p1)
        (SimpleDDL.parseDDL parseDur now p2.creationTimestamp p2)
        (namespacedName p1) (namespacedName p2) := rfl

theorem edfLess_eq_core (parseDur : String → Option Int)
    (cache : List (String × Int)) (now : Int) (p1 p2 : Pod) :
    EDF.Less parseDur cache now p1 p2 =
      lessCore (podPriority p1) (podPriority p2)
        (DeadlineMgr.GetPodDeadline parseDur cache now p1)
        (if p1.uid = p2.uid then
          DeadlineMgr.GetPodDeadline parseDur cache now p1
         else DeadlineMgr.GetPodDeadline parseDur cache now p2)
        (namespacedName p1) (namespacedName p2) := by
  simp only [EDF.Less, DeadlineMgr.AddPodDeadline, lessCore,
    getPodDeadline_setA]

theorem lessCore_exactlyOne (prio1 prio2 d1 d2 e1 e2 : Int) (n1 n2 : String)
    (hkey : n1 = n2 → prio1 = prio2 ∧ d1 = d2 ∧ e1 = e2)
    (h1 : d1 = d2 ↔ e1 = e2)
    (h2 : d1 ≠ d2 → (d1 < d2 ↔ ¬ e1 < e2)) :
    exactlyOne (lessCore prio1 prio2 d1 d2 n1 n2 = true)
      (lessCore prio2 prio1 e1 e2 n2 n1 = true) (n1 = n2) := by
  unfold lessCore exactlyOne
  by_cases hn : n1 = n2
  · obtain ⟨hp, hd, he⟩ := hkey hn
    exact Or.inr (Or.inr ⟨by simp [hp, hd, hn], by simp [hp, he, hn], hn⟩)
  · by_cases hp : prio1 = prio2
    · by_cases hd : d1 = d2
      · have he : e1 = e2 := h1.mp hd
        rcases lt_or_gt_of_ne hn with hlt | hgt
        · exact Or.inl ⟨by simp [hp, hd, hlt],
            by simp [hp, he, lt_asymm hlt], hn⟩
        · exact Or.inr (Or.inl ⟨by simp [hp, hd, lt_asymm hgt],
            by simp [hp, he, hgt], hn⟩)
      · have hee : e1 ≠ e2 := fun h => hd (h1.mpr h)
        by_cases hdl : d1 < d2
        · have hne : ¬ e1 < e2 := (h2 hd).mp hdl
          exact Or.inl ⟨by simp [hp, hd, hdl],
            by simp [hp, hee, hne], hn⟩
        · have he1 : e1 < e2 := by
            by_contra hne
            exact hdl ((h2 hd).mpr hne)
          exact Or.inr (Or.inl ⟨by simp [hp, hd, hdl],
            by simp [hp, hee, he1], hn⟩)
    · rcases lt_or_gt_of_ne hp with hlt | hgt
      · exact Or.inr (Or.inl ⟨by simp [hp, lt_asymm hlt],
          by simp [Ne.symm hp, hlt], hn⟩)
      · exact Or.inl ⟨by simp [hp, hgt],
          by simp [Ne.symm hp, lt_asymm hgt], hn⟩

/-- C1: both `Less` orderings are strict and total over queued pods.  For
any two pods among which the namespaced key `namespace/name` is an
identity (as it is in the scheduling queue, which is keyed by that name),
exactly one of `Less(p1,p2)`, `Less(p2,p1)`, or key equality holds; in
particular `Less` never returns true in both directions.  This holds for
the `SimpleDDL.Less` and, for every shared deadline-cache state, for the
`EDFPreemptiveScheduling.Less`. -/
theorem less_strict_total_order (parseDur : String → Option Int)
    (cache : List (String × Int)) (now : Int) (p1 p2 : Pod)
    (hkey : namespacedName p1 = namespacedName p2 → p1 = p2) :
    exactlyOne (SimpleDDL.Less parseDur now p1 p2 = true)
      (SimpleDDL.Less parseDur now p2 p1 = true)
      (namespacedName p1 = namespacedName p2) ∧
    exactlyOne (EDF.Less parseDur cache now p1 p2 = true)
      (EDF.Less parseDur cache now p2 p1 = true)
      (namespacedName p1 = namespacedName p2) := by
  constructor
  · rw [simpleLess_eq_core, simpleLess_eq_core]
    refine lessCore_exactlyOne _ _ _ _ _ _ _ _ ?_ ?_ ?_
    · intro hn
      obtain rfl := hkey hn
      exact ⟨rfl, rfl, rfl⟩
    · exact eq_comm
    · intro hne
      constructor
      · intro h hh
        exact lt_asymm h hh
      · intro h
        exact lt_of_le_of_ne (not_lt.mp h) hne
  · rw [edfLess_eq_core, edfLess_eq_core]
    by_cases hu : p1.uid = p2.uid
    · rw [if_pos hu, if_pos hu.symm]
      refine lessCore_exactlyOne _ _ _ _ _ _ _ _ ?_ ?_ ?_
      · intro hn
        obtain rfl := hkey hn
        exact ⟨rfl, rfl, rfl⟩
      · simp
      · intro hne
        exact absurd rfl hne
    · rw [if_neg hu, if_neg (fun h => hu h.symm)]
      refine lessCore_exactlyOne _ _ _ _ _ _ _ _ ?_ ?_ ?_
      · intro hn
        obtain rfl := hkey hn
        exact ⟨rfl, rfl, rfl⟩
      · exact eq_comm
      · intro hne
        constructor
        · intro h hh
          exact lt_asymm h hh
        · intro h
          exact lt_of_le_of_ne (not_lt.mp h) hne

/-- C1 witness: the trichotomy evaluated at two concrete pods with
distinct namespaced names. -/
theorem less_strict_total_order_witness :
    exactlyOne (SimpleDDL.Less parseDurC 0 podW podR = true)
      (SimpleDDL.Less parseDurC 0 podR podW = true)
      (namespacedName podW = namespacedName podR) ∧
    exactlyOne (EDF.Less parseDurC [] 0 podW podR = true)
      (EDF.Less parseDurC [] 0 podR podW = true)
      (namespacedName podW = namespacedName podR) :=
  less_strict_total_order parseDurC [] 0 podW podR
    (fun h => absurd h (by decide))

/-- C6: `PauseCandidate` is atomic with respect to the paused map.  When
the lister read fails or the store write of the marked pod fails, an error
is returned and the manager state is unchanged; when the write of the pod
marked `pause-pod="true"` succeeds, no error is returned and exactly the
entry `paused[key(W)] = N` is recorded. -/
theorem pauseCandidate_atomic (lister : String → String → Option Pod)
    (updateOk : Pod → Bool) (parseDur : String → Option Int) (now : Int)
    (st : Preemption.MgrState) (cand : Candidate) :
    (lister cand.pod.namespaceName cand.pod.name = none →
      (Preemption.PauseCandidate lister updateOk parseDur now st cand).1.isSome
          = true ∧
      (Preemption.PauseCandidate lister updateOk parseDur now st cand).2 = st) ∧
    (∀ latestPod, lister cand.pod.namespaceName cand.pod.name = some latestPod →
      updateOk (Preemption.markPodToPaused latestPod) = false →
      (Preemption.PauseCandidate lister updateOk parseDur now st cand).1.isSome
          = true ∧
      (Preemption.PauseCandidate lister updateOk parseDur now st cand).2 = st) ∧
    (∀ latestPod, lister cand.pod.namespaceName cand.pod.name = some latestPod →
      updateOk (Preemption.markPodToPaused latestPod) = true →
      lookupA (Preemption.markPodToPaused latestPod).annotations pausePodKey
          = some "true" ∧
      (Preemption.PauseCandidate lister updateOk parseDur now st cand).1
          = none ∧
      (Preemption.PauseCandidate lister updateOk parseDur now st cand).2.pausedPods
          = setA st.pausedPods (Preemption.toCacheKey cand.pod) cand.nodeName) := by
  refine ⟨?_, ?_, ?_⟩
  · intro h
    constructor <;> simp [Preemption.PauseCandidate, h]
  · intro latestPod h hupd
    constructor <;> simp [Preemption.PauseCandidate, h, hupd]
  · intro latestPod h hupd
    refine ⟨?_, ?_, ?_⟩
    · simp [Preemption.markPodToPaused, lookupA_setA]
    · simp [Preemption.PauseCandidate, h, hupd]
    · simp [Preemption.PauseCandidate, h, hupd, Preemption.AddPausedPod]

/-- C6 witness: a successful pause recorded from the empty manager state. -/
theorem pauseCandidate_atomic_witness :
    lookupA (Preemption.markPodToPaused podW).annotations pausePodKey
        = some "true" ∧
    (Preemption.PauseCandidate (fun _ _ => some podW) (fun _ => true)
        parseDurC 0 ⟨[], []⟩ ⟨"node1", podW⟩).1 = none ∧
    (Preemption.PauseCandidate (fun _ _ => some podW) (fun _ => true)
        parseDurC 0 ⟨[], []⟩ ⟨"node1", podW⟩).2.pausedPods =
      setA ([] : List (String × String)) (Preemption.toCacheKey podW) "node1" :=
  (pauseCandidate_atomic (fun _ _ => some podW) (fun _ => true) parseDurC 0
      ⟨[], []⟩ ⟨"node1", podW⟩).2.2 podW rfl rfl

/-- C8: `Filter` returns UnschedulableAndUnresolvable when the node
binding of the pod is non-empty and differs from the node; otherwise, when
the paused-resident resume check does not fire, it evaluates the resource
fit on the residents that are not in the paused phase, returning
Unschedulable with the collected insufficiency reasons when there are any
and success when there are none. -/
theorem filter_spec (parseDur : String → Option Int)
    (cache : List (String × Int)) (now : Int)
    (candOn : String → Option Candidate) (resumeOk : Candidate → Bool)
    (fits : Pod → List Pod → List String) (pod : Pod) (nodeName : String)
    (residents : List Pod) :
    (pod.nodeName ≠ "" → pod.nodeName ≠ nodeName →
      EDF.Filter parseDur cache now candOn resumeOk fits pod nodeName
        residents = EDF.Status.unresolvable) ∧
    ((pod.nodeName = "" ∨ pod.nodeName = nodeName) →
      (∀ c, candOn nodeName = some c →
        DeadlineMgr.GetPodDeadline parseDur cache now c.pod <
          DeadlineMgr.GetPodDeadline parseDur cache now pod →
        resumeOk c = false) →
      ((fits pod (residents.filter (fun p => p.phase ≠ Phase.paused)) = [] →
          EDF.Filter parseDur cache now candOn resumeOk fits pod nodeName
            residents = EDF.Status.success) ∧
       (fits pod (residents.filter (fun p => p.phase ≠ Phase.paused)) ≠ [] →
          EDF.Filter parseDur cache now candOn resumeOk fits pod nodeName
            residents =
            EDF.Status.unschedulable
              (fits pod (residents.filter (fun p => p.phase ≠ Phase.paused)))))) := by
  constructor
  · intro h1 h2
    have hlen : 0 < pod.nodeName.length := by
      rcases Nat.eq_zero_or_pos pod.nodeName.length with h0 | h0
      · exact absurd (String.ext (List.eq_nil_of_length_eq_zero h0)) h1
      · exact h0
    unfold EDF.Filter
    rw [if_pos ⟨hlen, h2⟩]
  · intro hbind hres
    have hcond : ¬ (0 < pod.nodeName.length ∧ pod.nodeName ≠ nodeName) := by
      rcases hbind with h | h
      · intro hc
        rw [h] at hc
        exact absurd hc.1 (by decide)
      · exact fun hc => hc.2 h
    have hresumed : (match candOn nodeName with
        | none => false
        | some candidate =>
          if DeadlineMgr.GetPodDeadline parseDur cache now candidate.pod <
              DeadlineMgr.GetPodDeadline parseDur cache now pod then
            resumeOk candidate
          else false) = false := by
      cases hc : candOn nodeName with
      | none => rfl
      | some c =>
        by_cases hdl : DeadlineMgr.GetPodDeadline parseDur cache now c.pod <
            DeadlineMgr.GetPodDeadline parseDur cache now pod
        · simp [hdl, hres c hc hdl]
        · simp [hdl]
    constructor
    · intro hfits
      unfold EDF.Filter
      rw [if_neg hcond]
      simp only [hresumed, Bool.false_eq_true, if_false, hfits]
      simp
    · intro hfits
      unfold EDF.Filter
      rw [if_neg hcond]
      simp only [hresumed, Bool.false_eq_true, if_false]
      have hlen2 : (fits pod (residents.filter
          (fun p => p.phase ≠ Phase.paused))).length ≠ 0 :=
        fun h0 => hfits (List.eq_nil_of_length_eq_zero h0)
      rw [if_pos hlen2]

/-- C8 witness: the filter evaluated at an unbound pod on an empty node
with a fit that reports no reasons. -/
theorem filter_spec_witness :
    EDF.Filter parseDurC [] 0 (fun _ => none) (fun _ => false)
      (fun _ _ => []) podW "node1" [] = EDF.Status.success :=
  ((filter_spec parseDurC [] 0 (fun _ => none) (fun _ => false)
      (fun _ _ => []) podW "node1" []).2 (Or.inl rfl)
    (fun _ hc _ => Option.noConfusion hc)).1 rfl

theorem findScan_cand_spec (parseDur : String → Option Int)
    (cache : List (String × Int)) (now : Int)
    (lister : String → String → Option Pod) (wuid : String) (init : Int) :
    ∀ (pods : List Pod) (maxDDL : Int) (cand : Option Pod),
      init ≤ maxDDL →
      (∀ c0, cand = some c0 → c0.uid ≠ wuid ∧ c0.phase ≠ Phase.paused ∧
        init < DeadlineMgr.GetPodDeadline parseDur cache now c0) →
      ∀ c, (EDF.findScan parseDur cache now lister wuid pods maxDDL cand).2.2
          = some c →
        c.uid ≠ wuid ∧ c.phase ≠ Phase.paused ∧
        init < DeadlineMgr.GetPodDeadline parseDur cache now c := by
  intro pods
  induction pods with
  | nil =>
    intro maxDDL cand _ hinv c hc
    exact hinv c hc
  | cons q rest ih =>
    intro maxDDL cand hle hinv c hc
    simp only [EDF.findScan] at hc
    by_cases h1 : ((lister q.namespaceName q.name).getD q).uid = wuid
    · rw [if_pos h1] at hc
      exact ih maxDDL cand hle hinv c hc
    · rw [if_neg h1] at hc
      by_cases h2 : ((lister q.namespaceName q.name).getD q).phase = Phase.paused
      · rw [if_pos h2] at hc
        exact ih maxDDL cand hle hinv c hc
      · rw [if_neg h2] at hc
        by_cases h3 : maxDDL < DeadlineMgr.GetPodDeadline parseDur cache now
            ((lister q.namespaceName q.name).getD q)
        · rw [if_pos h3] at hc
          refine ih _ _ (le_of_lt (lt_of_le_of_lt hle h3)) ?_ c hc
          intro c0 hc0
          obtain rfl := Option.some.inj hc0
          exact ⟨h1, h2, lt_of_le_of_lt hle h3⟩
        · rw [if_neg h3] at hc
          exact ih maxDDL cand hle hinv c hc

theorem findScan_none (parseDur : String → Option Int)
    (cache : List (String × Int)) (now : Int)
    (lister : String → String → Option Pod) (wuid : String) :
    ∀ (pods : List Pod) (maxDDL : Int),
      (∀ q ∈ pods, DeadlineMgr.GetPodDeadline parseDur cache now
          ((lister q.namespaceName q.name).getD q) ≤ maxDDL) →
      (EDF.findScan parseDur cache now lister wuid pods maxDDL none).2.2
        = none := by
  intro pods
  induction pods with
  | nil =>
    intro maxDDL _
    rfl
  | cons q rest ih =>
    intro maxDDL h
    have hrest : ∀ q2 ∈ rest, DeadlineMgr.GetPodDeadline parseDur cache now
        ((lister q2.namespaceName q2.name).getD q2) ≤ maxDDL :=
      fun q2 hq2 => h q2 (List.mem_cons_of_mem q hq2)
    simp only [EDF.findScan]
    by_cases h1 : ((lister q.namespaceName q.name).getD q).uid = wuid
    · rw [if_pos h1]
      exact ih maxDDL hrest
    · rw [if_neg h1]
      by_cases h2 : ((lister q.namespaceName q.name).getD q).phase = Phase.paused
      · rw [if_pos h2]
        exact ih maxDDL hrest
      · rw [if_neg h2]
        rw [if_neg (not_lt.mpr (h q (List.mem_cons_self q rest)))]
        exact ih maxDDL hrest

theorem selLoop_mem (parseDur : String → Option Int)
    (cache : List (String × Int)) (now : Int) :
    ∀ (l : List Candidate) (maxDDL : Int) (best : Candidate),
      EDF.selLoop parseDur cache now l maxDDL best = best ∨
      EDF.selLoop parseDur cache now l maxDDL best ∈ l := by
  intro l
  induction l with
  | nil =>
    intro maxDDL best
    exact Or.inl rfl
  | cons c rest ih =>
    intro maxDDL best
    simp only [EDF.selLoop]
    by_cases h : maxDDL < DeadlineMgr.GetPodDeadline parseDur cache now c.pod
    · rw [if_pos h]
      rcases ih (DeadlineMgr.GetPodDeadline parseDur cache now c.pod) c with
        h2 | h2
      · exact Or.inr (by rw [h2]; exact List.mem_cons_self c rest)
      · exact Or.inr (List.mem_cons_of_mem c h2)
    · rw [if_neg h]
      rcases ih maxDDL best with h2 | h2
      · exact Or.inl h2
      · exact Or.inr (List.mem_cons_of_mem c h2)

theorem selLoop_max (parseDur : String → Option Int)
    (cache : List (String × Int)) (now : Int) :
    ∀ (l : List Candidate) (maxDDL : Int) (best : Candidate),
      DeadlineMgr.GetPodDeadline parseDur cache now best.pod = maxDDL →
      maxDDL ≤ DeadlineMgr.GetPodDeadline parseDur cache now
          (EDF.selLoop parseDur cache now l maxDDL best).pod ∧
      ∀ c ∈ l, DeadlineMgr.GetPodDeadline parseDur cache now c.pod ≤
          DeadlineMgr.GetPodDeadline parseDur cache now
            (EDF.selLoop parseDur cache now l maxDDL best).pod := by
  intro l
  induction l with
  | nil =>
    intro maxDDL best hbest
    refine ⟨hbest.symm.le, ?_⟩
    intro c2 hc2
    exact absurd hc2 (List.not_mem_nil c2)
  | cons c rest ih =>
    intro maxDDL best hbest
    simp only [EDF.selLoop]
    by_cases h : maxDDL < DeadlineMgr.GetPodDeadline parseDur cache now c.pod
    · rw [if_pos h]
      obtain ⟨ha, hb⟩ :=
        ih (DeadlineMgr.GetPodDeadline parseDur cache now c.pod) c rfl
      refine ⟨le_trans (le_of_lt h) ha, ?_⟩
      intro c2 hc2
      rcases List.mem_cons.mp hc2 with rfl | hc2
      · exact ha
      · exact hb c2 hc2
    · rw [if_neg h]
      obtain ⟨ha, hb⟩ := ih maxDDL best hbest
      refine ⟨ha, ?_⟩
      intro c2 hc2
      rcases List.mem_cons.mp hc2 with rfl | hc2
      · exact le_trans (not_lt.mp h) ha
      · exact hb c2 hc2

/-- C2: the post-filter candidate search.  Any resident returned by
`findCandidateOnNode` is not paused, has a UID different from the pod
under scheduling, has a strictly later deadline, and its removal from the
unpaused residents makes the fit succeed; if no resolved resident has a
deadline later than the pod, no candidate is returned; and
`selectCandidate` returns a collected candidate whose deadline is maximal
among all collected candidates. -/
theorem postFilter_candidate_spec (parseDur : String → Option Int)
    (cache : List (String × Int)) (now : Int)
    (lister : String → String → Option Pod)
    (fits : Pod → List Pod → List String) (pod : Pod)
    (residents : List Pod) (candidates : List Candidate) :
    (∀ c, EDF.findCandidateOnNode parseDur cache now lister fits pod
        residents = some c →
      c.uid ≠ pod.uid ∧ c.phase ≠ Phase.paused ∧
      DeadlineMgr.GetPodDeadline parseDur cache now pod <
        DeadlineMgr.GetPodDeadline parseDur cache now c ∧
      fits pod (((EDF.findScan parseDur cache now lister pod.uid residents
          (DeadlineMgr.GetPodDeadline parseDur cache now pod) none).1).filter
          (fun p => p.uid ≠ c.uid)) = []) ∧
    ((∀ q ∈ residents, DeadlineMgr.GetPodDeadline parseDur cache now
        ((lister q.namespaceName q.name).getD q) ≤
        DeadlineMgr.GetPodDeadline parseDur cache now pod) →
      EDF.findCandidateOnNode parseDur cache now lister fits pod residents
        = none) ∧
    (∀ c, EDF.selectCandidate parseDur cache now candidates = some c →
      c ∈ candidates ∧ ∀ c2 ∈ candidates,
        DeadlineMgr.GetPodDeadline parseDur cache now c2.pod ≤
          DeadlineMgr.GetPodDeadline parseDur cache now c.pod) := by
  refine ⟨?_, ?_, ?_⟩
  · intro c hc
    simp only [EDF.findCandidateOnNode] at hc
    split at hc
    · exact absurd hc (by simp)
    · rename_i cp heq
      split at hc
      · exact absurd hc (by simp)
      · rename_i hfit
        obtain rfl := Option.some.inj hc
        have hprops := findScan_cand_spec parseDur cache now lister pod.uid
          (DeadlineMgr.GetPodDeadline parseDur cache now pod) residents
          (DeadlineMgr.GetPodDeadline parseDur cache now pod) none le_rfl
          (fun c0 hc0 => absurd hc0 (by simp)) cp heq
        refine ⟨hprops.1, hprops.2.1, hprops.2.2, ?_⟩
        exact List.eq_nil_of_length_eq_zero (Nat.eq_zero_of_not_pos hfit)
  · intro hall
    simp only [EDF.findCandidateOnNode]
    rw [findScan_none parseDur cache now lister pod.uid residents _ hall]
  · intro c hc
    cases candidates with
    | nil => exact absurd hc (by simp [EDF.selectCandidate])
    | cons c0 rest =>
      simp only [EDF.selectCandidate] at hc
      obtain rfl := Option.some.inj hc
      constructor
      · rcases selLoop_mem parseDur cache now (c0 :: rest)
          (DeadlineMgr.GetPodDeadline parseDur cache now c0.pod) c0 with h | h
        · rw [h]
          exact List.mem_cons_self c0 rest
        · exact h
      · exact (selLoop_max parseDur cache now (c0 :: rest)
          (DeadlineMgr.GetPodDeadline parseDur cache now c0.pod) c0 rfl).2

/-- C2 witness: the candidate search evaluated where the only resident has
a later deadline (a candidate is found), where the only resident has an
earlier deadline (no candidate), and the selection over a one-candidate
list. -/
theorem postFilter_candidate_spec_witness :
    podR.uid ≠ podW.uid ∧
    EDF.findCandidateOnNode parseDurC [] 0 (fun _ _ => none) (fun _ _ => [])
      podR [podW] = none ∧
    ∀ c2 ∈ [(⟨"node1", podR⟩ : Candidate)],
      DeadlineMgr.GetPodDeadline parseDurC [] 0 c2.pod ≤
        DeadlineMgr.GetPodDeadline parseDurC [] 0
          (⟨"node1", podR⟩ : Candidate).pod :=
  ⟨((postFilter_candidate_spec parseDurC [] 0 (fun _ _ => none)
      (fun _ _ => []) podW [podR] []).1 podR rfl).1,
   (postFilter_candidate_spec parseDurC [] 0 (fun _ _ => none)
      (fun _ _ => []) podR [podW] []).2.1 (by decide),
   ((postFilter_candidate_spec parseDurC [] 0 (fun _ _ => none)
      (fun _ _ => []) podR [] [⟨"node1", podR⟩]).2.2 ⟨"node1", podR⟩ rfl).2⟩

theorem getPodDeadline_markResume (parseDur : String → Option Int)
    (cache : List (String × Int)) (now : Int) (p : Pod) :
    DeadlineMgr.GetPodDeadline parseDur cache now
        (Preemption.markPodToResume p) =
      DeadlineMgr.GetPodDeadline parseDur cache now p := by
  have hne : pausePodKey ≠ ddlKeyRT := by decide
  simp [Preemption.markPodToResume, DeadlineMgr.GetPodDeadline,
    DeadlineMgr.ParsePodDeadline, lookupA_setA, hne]

theorem getPausedPodNode_eq_some (nodeL : String → Option NodeT)
    (st : Preemption.MgrState) (p : Pod) (node : NodeT)
    (h : Preemption.GetPausedPodNode nodeL st p = some node) :
    ∃ nodeName, lookupA st.pausedPods (Preemption.toCacheKey p)
        = some nodeName ∧ nodeL nodeName = some node := by
  unfold Preemption.GetPausedPodNode at h
  cases hlk : lookupA st.pausedPods (Preemption.toCacheKey p) with
  | none =>
    rw [hlk] at h
    exact Option.noConfusion h
  | some nodeName =>
    rw [hlk] at h
    exact ⟨nodeName, rfl, h⟩

theorem forallCons_glue {α : Type} {p : α → Prop} {key : α} {rest : List α}
    {q : Prop} (hp : p key) (hiff : q ↔ ∀ k ∈ rest, p k) :
    q ↔ ∀ k ∈ key :: rest, p k :=
  ⟨fun h0 => List.forall_mem_cons.mpr ⟨hp, hiff.mp h0⟩,
   fun hall => hiff.mpr (List.forall_mem_cons.mp hall).2⟩

theorem resumeScan_spec (lister : String → String → Option Pod)
    (nodeL : String → Option NodeT) (updateOk : Pod → Bool)
    (parseDur : String → Option Int) (now : Int)
    (st : Preemption.MgrState) (pod : Pod)
    (hN : ∀ s n, nodeL s = some n → n.name = s) :
    ∀ items : List String,
      (∀ p2 ∈ (Preemption.resumeScan lister nodeL updateOk parseDur now st
          pod items).2.2,
        DeadlineMgr.GetPodDeadline parseDur st.ddlCache now p2 ≤
          DeadlineMgr.GetPodDeadline parseDur st.ddlCache now pod) ∧
      (∀ c, (Preemption.resumeScan lister nodeL updateOk parseDur now st
          pod items).1 = some c →
        DeadlineMgr.GetPodDeadline parseDur st.ddlCache now c.pod ≤
          DeadlineMgr.GetPodDeadline parseDur st.ddlCache now pod ∧
        updateOk c.pod = true ∧
        lookupA c.pod.annotations pausePodKey = some "false" ∧
        lookupA st.pausedPods (Preemption.toCacheKey c.pod)
          = some c.nodeName ∧
        (Preemption.resumeScan lister nodeL updateOk parseDur now st pod
          items).2.1 = Preemption.RemovePausedPod st c.pod) ∧
      ((Preemption.resumeScan lister nodeL updateOk parseDur now st pod
          items).1 = none ↔
        ∀ key ∈ items, Preemption.canResume lister nodeL updateOk parseDur
          now st pod key = false) ∧
      ((Preemption.resumeScan lister nodeL updateOk parseDur now st pod
          items).1 = none →
        (Preemption.resumeScan lister nodeL updateOk parseDur now st pod
          items).2.1 = st) := by
  intro items
  induction items with
  | nil =>
    refine ⟨?_, ?_, ?_, ?_⟩
    · intro p2 hp2
      exact absurd hp2 (List.not_mem_nil p2)
    · intro c hc
      exact absurd hc (by simp [Preemption.resumeScan])
    · simp [Preemption.resumeScan]
    · intro _
      rfl
  | cons key rest ih =>
    obtain ⟨ih1, ih2, ih3, ih4⟩ := ih
    cases hL : lister (Preemption.parseCacheKey key).1
        (Preemption.parseCacheKey key).2 with
    | none =>
      have hstep : Preemption.resumeScan lister nodeL updateOk parseDur now
          st pod (key :: rest) =
          Preemption.resumeScan lister nodeL updateOk parseDur now st pod
            rest := by
        simp only [Preemption.resumeScan, hL]
      have hck : Preemption.canResume lister nodeL updateOk parseDur now st
          pod key = false := by
        simp only [Preemption.canResume, hL]
      refine ⟨?_, ?_, ?_, ?_⟩ <;> rw [hstep]
      · exact ih1
      · exact ih2
      · exact forallCons_glue hck ih3
      · exact ih4
    | some p0 =>
      by_cases hdl : DeadlineMgr.GetPodDeadline parseDur st.ddlCache now pod <
          DeadlineMgr.GetPodDeadline parseDur st.ddlCache now p0
      · have hstep : Preemption.resumeScan lister nodeL updateOk parseDur
            now st pod (key :: rest) =
            Preemption.resumeScan lister nodeL updateOk parseDur now st pod
              rest := by
          simp only [Preemption.resumeScan, hL]
          rw [if_pos hdl]
        have hck : Preemption.canResume lister nodeL updateOk parseDur now
            st pod key = false := by
          simp only [Preemption.canResume, hL]
          rw [if_pos hdl]
        refine ⟨?_, ?_, ?_, ?_⟩ <;> rw [hstep]
        · exact ih1
        · exact ih2
        · exact forallCons_glue hck ih3
        · exact ih4
      · cases hG : Preemption.GetPausedPodNode nodeL st p0 with
        | none =>
          have hstep : Preemption.resumeScan lister nodeL updateOk parseDur
              now st pod (key :: rest) =
              Preemption.resumeScan lister nodeL updateOk parseDur now st
                pod rest := by
            simp only [Preemption.resumeScan, hL]
            rw [if_neg hdl]
            simp only [hG]
          have hck : Preemption.canResume lister nodeL updateOk parseDur
              now st pod key = false := by
            simp only [Preemption.canResume, hL]
            rw [if_neg hdl]
            simp only [hG]
          refine ⟨?_, ?_, ?_, ?_⟩ <;> rw [hstep]
          · exact ih1
          · exact ih2
          · exact forallCons_glue hck ih3
          · exact ih4
        | some node =>
          by_cases hU : updateOk (Preemption.markPodToResume p0) = true
          · have hstep : Preemption.resumeScan lister nodeL updateOk
                parseDur now st pod (key :: rest) =
                (some ⟨node.name, Preemption.markPodToResume p0⟩,
                  Preemption.RemovePausedPod st
                    (Preemption.markPodToResume p0),
                  [Preemption.markPodToResume p0]) := by
              simp only [Preemption.resumeScan, hL]
              rw [if_neg hdl]
              simp only [hG]
              rw [if_pos hU]
            have hckT : Preemption.canResume lister nodeL updateOk parseDur
                now st pod key = true := by
              simp only [Preemption.canResume, hL]
              rw [if_neg hdl]
              simp only [hG]
              exact hU
            refine ⟨?_, ?_, ?_, ?_⟩ <;> rw [hstep]
            · intro p2 hp2
              have hp2m : p2 = Preemption.markPodToResume p0 := by
                simpa using hp2
              subst hp2m
              rw [getPodDeadline_markResume]
              exact not_lt.mp hdl
            · intro c hc
              obtain rfl := Option.some.inj hc
              obtain ⟨nodeName, hlk, hnl⟩ :=
                getPausedPodNode_eq_some nodeL st p0 node hG
              refine ⟨?_, hU, ?_, ?_, rfl⟩
              · rw [getPodDeadline_markResume]
                exact not_lt.mp hdl
              · simp [Preemption.markPodToResume, lookupA_setA]
              · show lookupA st.pausedPods (Preemption.toCacheKey p0)
                  = some node.name
                rw [hlk, hN nodeName node hnl]
            · refine iff_of_false (by simp) ?_
              intro hall
              have h0 := hall key (List.mem_cons_self key rest)
              rw [hckT] at h0
              exact absurd h0 (by simp)
            · intro h0
              exact absurd h0 (by simp)
          · have hU2 : updateOk (Preemption.markPodToResume p0) = false := by
              cases h2 : updateOk (Preemption.markPodToResume p0) with
              | false => rfl
              | true => exact absurd h2 hU
            have hstep : Preemption.resumeScan lister nodeL updateOk
                parseDur now st pod (key :: rest) =
                ((Preemption.resumeScan lister nodeL updateOk parseDur now
                    st pod rest).1,
                  (Preemption.resumeScan lister nodeL updateOk parseDur now
                    st pod rest).2.1,
                  Preemption.markPodToResume p0 ::
                    (Preemption.resumeScan lister nodeL updateOk parseDur
                      now st pod rest).2.2) := by
              simp only [Preemption.resumeScan, hL]
              rw [if_neg hdl]
              simp only [hG]
              rw [if_neg hU]
            have hck : Preemption.canResume lister nodeL updateOk parseDur
                now st pod key = false := by
              simp only [Preemption.canResume, hL]
              rw [if_neg hdl]
              simp only [hG]
              exact hU2
            refine ⟨?_, ?_, ?_, ?_⟩ <;> rw [hstep]
            · intro p2 hp2
              rcases List.mem_cons.mp hp2 with rfl | hp2
              · rw [getPodDeadline_markResume]
                exact not_lt.mp hdl
              · exact ih1 p2 hp2
            · intro c hc
              exact ih2 c hc
            · exact forallCons_glue hck ih3
            · intro h0
              exact ih4 h0

/-- C7: `ResumePausedPod` scans the paused entries and hands to the store
write only pods whose deadline is at most the trigger deadline; it stops at
the first entry whose write succeeds, returning that candidate marked
`pause-pod="false"` together with the node recorded for it, with that entry
removed from the paused map; it returns nil exactly when no entry can be
fully resumed, leaving the map unchanged. -/
theorem resumePausedPod_spec (lister : String → String → Option Pod)
    (nodeL : String → Option NodeT) (updateOk : Pod → Bool)
    (parseDur : String → Option Int) (now : Int)
    (st : Preemption.MgrState) (pod : Pod)
    (hN : ∀ s n, nodeL s = some n → n.name = s) :
    (∀ p2 ∈ (Preemption.ResumePausedPod lister nodeL updateOk parseDur now
        st pod).2.2,
      DeadlineMgr.GetPodDeadline parseDur st.ddlCache now p2 ≤
        DeadlineMgr.GetPodDeadline parseDur st.ddlCache now pod) ∧
    (∀ c, (Preemption.ResumePausedPod lister nodeL updateOk parseDur now st
        pod).1 = some c →
      DeadlineMgr.GetPodDeadline parseDur st.ddlCache now c.pod ≤
        DeadlineMgr.GetPodDeadline parseDur st.ddlCache now pod ∧
      updateOk c.pod = true ∧
      lookupA c.pod.annotations pausePodKey = some "false" ∧
      lookupA st.pausedPods (Preemption.toCacheKey c.pod)
        = some c.nodeName ∧
      (Preemption.ResumePausedPod lister nodeL updateOk parseDur now st
        pod).2.1.pausedPods =
        removeA st.pausedPods (Preemption.toCacheKey c.pod)) ∧
    ((Preemption.ResumePausedPod lister nodeL updateOk parseDur now st
        pod).1 = none ↔
      ∀ key ∈ st.pausedPods.map Prod.fst,
        Preemption.canResume lister nodeL updateOk parseDur now st pod key
          = false) ∧
    ((Preemption.ResumePausedPod lister nodeL updateOk parseDur now st
        pod).1 = none →
      (Preemption.ResumePausedPod lister nodeL updateOk parseDur now st
        pod).2.1 = st) := by
  have h := resumeScan_spec lister nodeL updateOk parseDur now st pod hN
    (st.pausedPods.map Prod.fst)
  refine ⟨h.1, ?_, h.2.2.1, h.2.2.2⟩
  intro c hc
  obtain ⟨h1, h2, h3, h4, h5⟩ := h.2.1 c hc
  refine ⟨h1, h2, h3, h4, ?_⟩
  rw [show (Preemption.ResumePausedPod lister nodeL updateOk parseDur now
      st pod).2.1 = Preemption.RemovePausedPod st c.pod from h5]
  rfl

/-- C7 witness: a resume evaluated at a single qualifying paused entry,
with a trigger pod whose deadline is later than the paused deadline and a
store write that succeeds. -/
theorem resumePausedPod_spec_witness :
    DeadlineMgr.GetPodDeadline parseDurC [] 0
        (Preemption.markPodToResume podW) ≤
      DeadlineMgr.GetPodDeadline parseDurC [] 0 podR ∧
    lookupA (Preemption.markPodToResume podW).annotations pausePodKey
      = some "false" ∧
    (Preemption.ResumePausedPod (fun _ _ => some podW)
        (fun s => some ⟨s⟩) (fun _ => true) parseDurC 0
        ⟨[("default/w", "node1")], []⟩ podR).2.1.pausedPods =
      removeA [("default/w", "node1")]
        (Preemption.toCacheKey (Preemption.markPodToResume podW)) :=
  have h := (resumePausedPod_spec (fun _ _ => some podW)
    (fun s => some ⟨s⟩) (fun _ => true) parseDurC 0
    ⟨[("default/w", "node1")], []⟩ podR
    (by
      intro s n hsn
      injection hsn with h2
      rw [← h2])).2.1 ⟨"node1", Preemption.markPodToResume podW⟩ rfl
  ⟨h.1, h.2.2.1, h.2.2.2.2⟩
